import Mathlib

/-!
Verification of the real-time quote distribution path of the
next-nodejs-monorepo repository.

The definitions below are a shallow embedding of
`apps/backend/src/quotes.ts` (QuoteStore, QuotePublisher, the synthetic
generator with the mulberry32 PRNG) and of the reconnect scheduling in
`apps/frontend/src/components/QuotesDashboard.tsx`.

JS `Map`s are embedded as association lists (`List (key × value)`) with
`Map.set` semantics: setting an existing key updates it in place (keeping
its position in iteration order), setting a new key appends it.  JS `Set`s
of strings are embedded as duplicate-free lists in insertion order.
Prices are embedded as rationals (the JS code uses IEEE doubles; none of
the claims below depends on float rounding).  WebSocket connections are
embedded as a `Conn` record carrying the observable facts the publisher
branches on: whether `readyState === OPEN` and whether `send` succeeds
(a failing `send` throws, which the code catches and ignores).
-/

/-- Embedding of `QuoteTick` from quotes.ts: `{ symbol: string; price: number; ts: string }`. -/
structure QuoteTick where
  symbol : String
  price : ℚ
  ts : String
deriving DecidableEq, Repr

/-- JS `Map.get`: the value stored at `k`, if any. -/
def mapGet {κ α : Type} [DecidableEq κ] (m : List (κ × α)) (k : κ) : Option α :=
  (m.find? (fun p => p.1 = k)).map Prod.snd

/-- JS `Map.set`: overwrite the entry for `k` in place if present, else append. -/
def mapSet {κ α : Type} [DecidableEq κ] (m : List (κ × α)) (k : κ) (v : α) : List (κ × α) :=
  if m.any (fun p => p.1 = k) then
    m.map (fun p => if p.1 = k then (k, v) else p)
  else
    m ++ [(k, v)]

/-- JS `new Set(symbols)` / repeated `Set.add`: de-duplicate keeping first occurrence. -/
def jsSetOfList (l : List String) : List String :=
  l.foldl (fun acc s => if s ∈ acc then acc else acc ++ [s]) []

/-- The observable state of one WebSocket connection, as used by the publisher:
`id` distinguishes connections, `isOpen` is `readyState === WebSocket.OPEN`,
`sendOk` is whether `ws.send` succeeds (it throws otherwise). -/
structure Conn where
  id : Nat
  isOpen : Bool
  sendOk : Bool
deriving DecidableEq, Repr

/-- The mutable state of `QuoteStore` plus `QuotePublisher`:
`store` is `QuoteStore.symbolToQuote`, `subscribers` is
`QuotePublisher.subscribers` (connections to their interest sets), and
`pending` is `QuotePublisher.pending` (symbol to latest tick of the batch). -/
structure PublisherState where
  store : List (String × QuoteTick)
  subscribers : List (Conn × List String)
  pending : List (String × QuoteTick)
deriving DecidableEq, Repr

/-- Embedding of `QuoteStore.upsert(symbol, price, ts)`. -/
def upsert (store : List (String × QuoteTick)) (symbol : String) (price : ℚ) (ts : String) :
    List (String × QuoteTick) :=
  mapSet store symbol ⟨symbol, price, ts⟩

/-- Embedding of `QuoteStore.snapshot(symbols)`: for each requested symbol, its stored tick
(`symbolToQuote.get(s)`) or `null` (a tick object is never falsy, so `|| null`
is exactly the `none` case). -/
def snapshot (store : List (String × QuoteTick)) (symbols : List String) :
    List (String × Option QuoteTick) :=
  symbols.map (fun s => (s, mapGet store s))

/-- Embedding of `QuotePublisher.addSubscriber(ws, symbols)`: `subscribers.set(ws, new Set(symbols))`. -/
def addSubscriber (st : PublisherState) (c : Conn) (symbols : List String) : PublisherState :=
  { st with subscribers := mapSet st.subscribers c (jsSetOfList symbols) }

/-- Embedding of `QuotePublisher.updateSubscription(ws, symbols)`: take the existing set (or
a fresh one), `clear()` it, add every given symbol, and store it back; the net
registry content at key `ws` is the de-duplicated new symbol list. -/
def updateSubscription (st : PublisherState) (c : Conn) (symbols : List String) : PublisherState :=
  { st with subscribers := mapSet st.subscribers c (jsSetOfList symbols) }

/-- Embedding of `QuotePublisher.removeSubscriber(ws)`: `subscribers.delete(ws)`. -/
def removeSubscriber (st : PublisherState) (c : Conn) : PublisherState :=
  { st with subscribers := st.subscribers.filter (fun e => decide (e.1 ≠ c)) }

/-- Embedding of `QuotePublisher.publish(symbol, price, ts)`: write through to the store,
then overwrite the symbol's entry in the pending batch. -/
def publish (st : PublisherState) (symbol : String) (price : ℚ) (ts : String) : PublisherState :=
  { st with
    store := upsert st.store symbol price ts
    pending := mapSet st.pending symbol ⟨symbol, price, ts⟩ }

/-- The payload built for one subscriber inside `flush`: iterate over the
subscriber's interest set and collect the batch's tick for each symbol that
has one. -/
def payloadFor (batch : List (String × QuoteTick)) (subs : List String) : List QuoteTick :=
  subs.filterMap (fun s => mapGet batch s)

/-- One subscriber's turn in the flush loop: skipped when the connection is
not open; a message is sent only when the payload is non-empty; a throwing
`send` is swallowed (`catch {}`), so a delivery happens exactly when the
payload is non-empty and the send succeeds. -/
def deliverOne (batch : List (String × QuoteTick)) (entry : Conn × List String) :
    Option (Conn × List QuoteTick) :=
  if entry.1.isOpen then
    let payload := payloadFor batch entry.2
    if payload ≠ [] ∧ entry.1.sendOk then some (entry.1, payload) else none
  else none

/-- Embedding of `QuotePublisher.flush()`: early return when the pending batch or the
subscriber registry is empty; otherwise swap the batch out for an empty one
and send each open subscriber its non-empty filtered payload.  Returns the
new state and the list of successful deliveries. -/
def flush (st : PublisherState) : PublisherState × List (Conn × List QuoteTick) :=
  if st.pending = [] ∨ st.subscribers = [] then (st, [])
  else
    ({ st with pending := [] }, st.subscribers.filterMap (deliverOne st.pending))

/-- Embedding of `QuotePublisher.pingAll()`: ping every registered connection that is open;
state is not modified.  Returns the list of pinged connections. -/
def pingAll (st : PublisherState) : List Conn :=
  st.subscribers.filterMap (fun e => if e.1.isOpen then some e.1 else none)

/-- Well-formedness of a symbol-keyed tick map: every entry's tick carries the
entry's key as its symbol.  `publish` and `upsert` only ever store
`⟨symbol, price, ts⟩` at key `symbol`, so this holds for all reachable
stores and batches. -/
def WFbatch (m : List (String × QuoteTick)) : Prop :=
  ∀ k t, (k, t) ∈ m → t.symbol = k

/-- The constant `maxReconnectAttempts = 5` in QuotesDashboard.tsx. -/
def maxReconnectAttempts : Nat := 5

/-- Embedding of `reconnect()` from QuotesDashboard.tsx: when the attempt counter has
reached `maxReconnectAttempts`, set the terminal "Max reconnection attempts
reached" error and schedule nothing; otherwise schedule a reconnect after
`Math.min(1000 * Math.pow(2, attempts), 30000) + Math.random() * 1000`
milliseconds.  The random jitter is passed in explicitly; the result is the
scheduled delay (if any) and the surfaced error message (if any). -/
def reconnect (attempts : Nat) (jitter : ℚ) : Option ℚ × Option String :=
  if attempts ≥ maxReconnectAttempts then
    (none, some "Max reconnection attempts reached")
  else
    (some (min (1000 * 2 ^ attempts) 30000 + jitter), none)

/-- A sequence of `publish` calls, each a `(symbol, price, ts)` triple, applied
in order to a publisher state. -/
def applyPublishes (calls : List (String × ℚ × String)) (st : PublisherState) : PublisherState :=
  calls.foldl (fun s c => publish s c.1 c.2.1 c.2.2) st

/-- The `(price, ts)` of the last call to `sym` in a call sequence, if any. -/
def lastCallTo (sym : String) : List (String × ℚ × String) → Option (ℚ × String)
  | [] => none
  | c :: rest =>
    match lastCallTo sym rest with
    | some x => some x
    | none => if c.1 = sym then some c.2 else none

/-- Embedding of `Math.imul`: the low 32 bits of the product. -/
def imul32 (a b : Nat) : Nat := (a * b) % 4294967296

/-- One call of the closure returned by `mulberry32(seed)` from quotes.ts:
`t += 0x6D2B79F5` (kept modulo 2^32 — every use of `t` truncates to 32 bits),
`r = imul(t ^ (t >>> 15), 1 | t)`, `r ^= r + imul(r ^ (r >>> 7), 61 | r)`,
output `(r ^ (r >>> 14)) >>> 0`.  Returns the new state and the raw uint32
output; the JS float result is this uint32 divided by 2^32. -/
def mb32 (t : Nat) : Nat × Nat :=
  let t1 := (t + 0x6D2B79F5) % 4294967296
  let r1 := imul32 (Nat.xor t1 (t1 >>> 15)) (Nat.lor 1 t1)
  let r2 := Nat.xor r1 ((r1 + imul32 (Nat.xor r1 (r1 >>> 7)) (Nat.lor 61 r1)) % 4294967296)
  (t1, Nat.xor r2 (r2 >>> 14))

/-- Embedding of `Math.max` on JS numbers: the larger argument. -/
def jsMax (a b : ℚ) : ℚ := if a ≤ b then b else a

/-- Floor of a rational as an integer (`x.num` and `x.den` are coprime and
`x.den > 0`, so flooring is floor-division of the numerator). -/
def qfloor (x : ℚ) : ℤ := Int.fdiv x.num x.den

/-- Embedding of `Number(x.toFixed(2))`: rounding to two decimals.  (`toFixed` acts on the
binary double; rounding the exact rational to the nearest hundredth is the
idealisation — none of the claims proved here depends on the tie-breaking of
that rounding.) -/
def round2 (x : ℚ) : ℚ := (qfloor (x * 100 + 1/2) : ℚ) / 100

/-- The generator's mutable state: the PRNG register `t` of the `mulberry32`
closure and the running `priceMap`. -/
structure GenState where
  t : Nat
  prices : List (String × ℚ)
deriving DecidableEq, Repr

/-- Generator start-up in `startRandomQuoteGenerator`: `rng = mulberry32(42)`
and `priceMap.set(s, 100 + Math.floor(rng() * 200))` for each symbol. -/
def genInit (symbols : List String) : GenState :=
  symbols.foldl
    (fun st s =>
      let r := mb32 st.t
      { t := r.1, prices := mapSet st.prices s ((100 + r.2 * 200 / 4294967296 : Nat) : ℚ) })
    { t := 42, prices := [] }

/-- One update inside the generator's `tick()` body: pick
`s = symbols[Math.floor(rng() * symbols.length)]`, read
`last = priceMap.get(s) || 100` (`0` is falsy in JS), perturb by
`delta = (rng() - 0.5) * 2`, clamp via
`next = Math.max(1, Number((last + delta).toFixed(2)))`, store `next`, and
emit the `publish(s, next, now)` call. -/
def genUpdate (symbols : List String) (now : String) (st : GenState) :
    GenState × (String × ℚ × String) :=
  let a := mb32 st.t
  let s := symbols.getD (a.2 * symbols.length / 4294967296) ""
  let last : ℚ :=
    match mapGet st.prices s with
    | some p => if p = 0 then 100 else p
    | none => 100
  let b := mb32 a.1
  let delta : ℚ := ((b.2 : ℚ) / 4294967296 - 1/2) * 2
  let next := jsMax 1 (round2 (last + delta))
  ({ t := b.1, prices := mapSet st.prices s next }, (s, next, now))

/-- The loop `for (let i = 0; i < updates; i++)` inside one `tick()` call:
`n` updates, all stamped with the same `now`. -/
def genTickN : Nat → List String → String → GenState → GenState × List (String × ℚ × String)
  | 0, _, _, st => (st, [])
  | n + 1, symbols, now, st =>
    let r := genUpdate symbols now st
    let rest := genTickN n symbols now r.1
    (rest.1, r.2 :: rest.2)

/-- The successive `tick()` firings of the generator's interval timer, one
entry of `times` per firing: each firing reads the wall clock
(`new Date().toISOString()`, passed in as that firing's element of `times`)
and performs `updates` publishes. -/
def genLoop (updates : Nat) (symbols : List String) (st : GenState) :
    List String → GenState × List (String × ℚ × String)
  | [] => (st, [])
  | now :: rest =>
    let r := genTickN updates symbols now st
    let q := genLoop updates symbols r.1 rest
    (q.1, r.2 ++ q.2)

/-- One full run of `startRandomQuoteGenerator({symbols, ratePerSec: rate})`
observed for `times.length` timer firings: the clamped
`baseRate = max(1, min(1000, rate))`, `updates = max(1, baseRate / 10)`
publishes per firing, seeded from the fixed literal 42.  The result is the
ordered sequence of `publish(symbol, price, ts)` calls the run makes. -/
def genRun (symbols : List String) (rate : Nat) (times : List String) :
    List (String × ℚ × String) :=
  let baseRate := max 1 (min 1000 rate)
  let updates := max 1 (baseRate / 10)
  (genLoop updates symbols (genInit symbols) times).2

/-- Forget the timestamps of a publish-call trace, keeping `(symbol, price)`. -/
def dropTs (tr : List (String × ℚ × String)) : List (String × ℚ) :=
  tr.map (fun c => (c.1, c.2.1))

theorem find_overwrite_self {κ α : Type} [DecidableEq κ] (m : List (κ × α)) (k : κ) (v : α)
    (h : m.any (fun p => p.1 = k) = true) :
    ((m.map (fun p => if p.1 = k then (k, v) else p)).find?
      (fun p => p.1 = k)).map Prod.snd = some v := by
  induction m with
  | nil => simp at h
  | cons p rest ih =>
    by_cases hp : p.1 = k
    · rw [List.map_cons, if_pos hp, List.find?_cons_of_pos _ (by simp)]
      rfl
    · simp only [List.any_cons] at h
      rw [Bool.or_eq_true] at h
      rcases h with h | h
    
      · exact absurd (of_decide_eq_true h) hp
      · rw [List.map_cons, if_neg hp, List.find?_cons_of_neg _ (by simpa using hp)]
        exact ih h

theorem find_append_single {κ α : Type} [DecidableEq κ] (m : List (κ × α)) (k : κ) (v : α)
    (h : m.find? (fun p => p.1 = k) = none) :
    ((m ++ [(k, v)]).find? (fun p => p.1 = k)).map Prod.snd = some v := by
  induction m with
  | nil =>
    rw [List.nil_append, List.find?_cons_of_pos _ (by simp)]
    rfl
  | cons p rest ih =>
    by_cases hp : p.1 = k
    · rw [List.find?_cons_of_pos _ (by simpa using hp)] at h
      exact absurd h (by simp)
    · rw [List.find?_cons_of_neg _ (by simpa using hp)] at h
      rw [List.cons_append, List.find?_cons_of_neg _ (by simpa using hp)]
      exact ih h

theorem mapGet_mapSet_self {κ α : Type} [DecidableEq κ] (m : List (κ × α)) (k : κ) (v : α) :
    mapGet (mapSet m k v) k = some v := by
  unfold mapGet mapSet
  by_cases h : m.any (fun p => p.1 = k) = true
  · rw [if_pos h]
    exact find_overwrite_self m k v h
  · rw [if_neg h]
    have hnone : m.find? (fun p => p.1 = k) = none := by
      rw [List.find?_eq_none]
      intro p hp hq
      exact h (List.any_eq_true.mpr ⟨p, hp, hq⟩)
    exact find_append_single m k v hnone

theorem find_overwrite_ne {κ α : Type} [DecidableEq κ] (m : List (κ × α)) (k k' : κ) (v : α)
    (h : k ≠ k') :
    (m.map (fun p => if p.1 = k' then (k', v) else p)).find? (fun p => p.1 = k) =
      m.find? (fun p => p.1 = k) := by
  induction m with
  | nil => simp
  | cons p rest ih =>
    by_cases hp : p.1 = k'
    · have hpk : ¬ p.1 = k := by rw [hp]; exact fun hk => h hk.symm
      rw [List.map_cons, if_pos hp,
        List.find?_cons_of_neg _ (show ¬ _ by simpa using fun hk => h hk.symm),
        List.find?_cons_of_neg _ (by simpa using hpk)]
      exact ih
    · rw [List.map_cons, if_neg hp]
      by_cases hpk : p.1 = k
      · rw [List.find?_cons_of_pos _ (by simpa using hpk),
          List.find?_cons_of_pos _ (by simpa using hpk)]
      · rw [List.find?_cons_of_neg _ (by simpa using hpk),
          List.find?_cons_of_neg _ (by simpa using hpk)]
        exact ih

theorem find_append_single_ne {κ α : Type} [DecidableEq κ] (m : List (κ × α)) (k k' : κ) (v : α)
    (h : k ≠ k') :
    (m ++ [(k', v)]).find? (fun p => p.1 = k) = m.find? (fun p => p.1 = k) := by
  induction m with
  | nil =>
    rw [List.nil_append, List.find?_cons_of_neg _ (show ¬ _ by simpa using fun hk => h hk.symm)]
  | cons p rest ih =>
    by_cases hpk : p.1 = k
    · rw [List.cons_append, List.find?_cons_of_pos _ (by simpa using hpk),
        List.find?_cons_of_pos _ (by simpa using hpk)]
    · rw [List.cons_append, List.find?_cons_of_neg _ (by simpa using hpk),
        List.find?_cons_of_neg _ (by simpa using hpk)]
      exact ih

theorem mapGet_mapSet_ne {κ α : Type} [DecidableEq κ] (m : List (κ × α)) (k k' : κ) (v : α)
    (h : k ≠ k') : mapGet (mapSet m k' v) k = mapGet m k := by
  unfold mapGet mapSet
  by_cases hm : m.any (fun p => p.1 = k') = true
  · rw [if_pos hm, find_overwrite_ne m k k' v h]
  · rw [if_neg hm, find_append_single_ne m k k' v h]

/-- C4: for every reconnect attempt `k` (0-indexed), the scheduled delay lies
in `[1000 * 2^k, 1000 * 2^k + 1000]` and never exceeds the 30000 ms cap; once
the attempt counter reaches the maximum of 5, no further attempt is scheduled
and the terminal connection-failed error is surfaced. -/
theorem reconnect_backoff_bounds (k : Nat) (j : ℚ) (h0 : 0 ≤ j) (h1 : j < 1000) :
    (∀ hk : k < maxReconnectAttempts, ∃ d : ℚ, (reconnect k j).1 = some d ∧
      1000 * 2 ^ k ≤ d ∧ d ≤ 1000 * 2 ^ k + 1000 ∧ d ≤ 30000) ∧
    (k ≥ maxReconnectAttempts →
      reconnect k j = (none, some "Max reconnection attempts reached")) := by
  constructor
  · intro hk
    refine ⟨min (1000 * 2 ^ k) 30000 + j, ?_, ?_, ?_, ?_⟩
    · unfold reconnect
      rw [if_neg (by omega)]
    · have hcap : (1000 : ℚ) * 2 ^ k ≤ 30000 := by
        have hpow : (2 : ℚ) ^ k ≤ 2 ^ 4 := by
          apply pow_le_pow_right₀ (by norm_num)
          unfold maxReconnectAttempts at hk
          omega
        nlinarith
      rw [min_eq_left hcap]
      linarith
    · have hcap : (1000 : ℚ) * 2 ^ k ≤ 30000 := by
        have hpow : (2 : ℚ) ^ k ≤ 2 ^ 4 := by
          apply pow_le_pow_right₀ (by norm_num)
          unfold maxReconnectAttempts at hk
          omega
        nlinarith
      rw [min_eq_left hcap]
      linarith
    · have hpow : (2 : ℚ) ^ k ≤ 2 ^ 4 := by
        apply pow_le_pow_right₀ (by norm_num)
        unfold maxReconnectAttempts at hk
        omega
      have hcap : (1000 : ℚ) * 2 ^ k ≤ 16000 := by nlinarith
      rw [min_eq_left (by linarith)]
      linarith
  · intro hk
    unfold reconnect
    rw [if_pos hk]

/-- Witness for C4: attempt 3 with jitter 1/2 schedules a delay in
`[8000, 9000]` under the cap, and attempt 5 schedules nothing and surfaces
the terminal error. -/
theorem reconnect_backoff_bounds_witness :
    (∃ d : ℚ, (reconnect 3 (1/2)).1 = some d ∧
      1000 * 2 ^ 3 ≤ d ∧ d ≤ 1000 * 2 ^ 3 + 1000 ∧ d ≤ 30000) ∧
    reconnect 5 0 = (none, some "Max reconnection attempts reached") :=
  ⟨(reconnect_backoff_bounds 3 (1/2) (by norm_num) (by norm_num)).1 (by decide),
   (reconnect_backoff_bounds 5 0 (by norm_num) (by norm_num)).2 (by decide)⟩

/-- C6: `updateSubscription` replaces the interest set rather than merging:
the registry entry after an update is exactly the (de-duplicated) new symbol
list, and in particular subscribing to `["AAPL"]` and then `["MSFT"]` leaves
interest exactly `["MSFT"]`. -/
theorem updateSubscription_replaces (st : PublisherState) (c : Conn) :
    (∀ syms : List String,
      mapGet ((updateSubscription st c syms).subscribers) c = some (jsSetOfList syms)) ∧
    mapGet ((updateSubscription (updateSubscription st c ["AAPL"]) c ["MSFT"]).subscribers) c
      = some ["MSFT"] := by
  constructor
  · intro syms
    exact mapGet_mapSet_self st.subscribers c (jsSetOfList syms)
  · exact mapGet_mapSet_self (updateSubscription st c ["AAPL"]).subscribers c
      (jsSetOfList ["MSFT"])

/-- C7: `snapshot` returns an entry for every requested symbol — the stored
tick when present — and a symbol never published yields the explicit `none`
marker rather than an error (the function is total). -/
theorem snapshot_total_and_null (store : List (String × QuoteTick)) (symbols : List String)
    (s : String) (hs : s ∈ symbols) :
    (s, mapGet store s) ∈ snapshot store symbols ∧
    ((∀ t : QuoteTick, (s, t) ∉ store) → mapGet store s = none) := by
  constructor
  · exact List.mem_map_of_mem _ hs
  · intro hnone
    unfold mapGet
    have hfind : store.find? (fun p => p.1 = s) = none := by
      rw [List.find?_eq_none]
      intro p hp hq
      have hps : p.1 = s := of_decide_eq_true hq
      exact hnone p.2 (by rw [← hps]; exact hp)
    rw [hfind]
    rfl

/-- Witness for C7: requesting `["AAPL", "ZZZ"]` against a store holding only
`AAPL`, the never-published symbol `ZZZ` appears in the snapshot with the
`none` marker. -/
theorem snapshot_total_and_null_witness :
    ("ZZZ", (none : Option QuoteTick)) ∈
      snapshot [("AAPL", ⟨"AAPL", 190, "2024-01-01"⟩)] ["AAPL", "ZZZ"] :=
  (snapshot_total_and_null [("AAPL", ⟨"AAPL", 190, "2024-01-01"⟩)] ["AAPL", "ZZZ"] "ZZZ"
    (by simp)).1

/-- C8: `removeSubscriber` is idempotent: removing a connection that is not
registered leaves the whole publisher state unchanged (registry and pending
batch included), and removing twice equals removing once. -/
theorem removeSubscriber_idempotent (st : PublisherState) (c : Conn) :
    ((∀ subs, (c, subs) ∉ st.subscribers) → removeSubscriber st c = st) ∧
    removeSubscriber (removeSubscriber st c) c = removeSubscriber st c := by
  constructor
  · intro h
    unfold removeSubscriber
    have hfilter : st.subscribers.filter (fun e => decide (e.1 ≠ c)) = st.subscribers := by
      rw [List.filter_eq_self]
      intro e he
      simp only [decide_eq_true_eq]
      intro hec
      exact h e.2 (by rw [← hec]; exact he)
    rw [hfilter]
  · unfold removeSubscriber
    simp [List.filter_filter]

/-- Witness for C8: removing an unregistered connection from a state with one
other subscriber is a no-op, and a second removal changes nothing further. -/
theorem removeSubscriber_idempotent_witness :
    removeSubscriber ⟨[], [(⟨1, true, true⟩, ["AAPL"])], []⟩ ⟨0, true, true⟩
      = ⟨[], [(⟨1, true, true⟩, ["AAPL"])], []⟩ ∧
    removeSubscriber
      (removeSubscriber ⟨[], [(⟨1, true, true⟩, ["AAPL"])], []⟩ ⟨0, true, true⟩)
      ⟨0, true, true⟩
      = removeSubscriber ⟨[], [(⟨1, true, true⟩, ["AAPL"])], []⟩ ⟨0, true, true⟩ :=
  ⟨(removeSubscriber_idempotent ⟨[], [(⟨1, true, true⟩, ["AAPL"])], []⟩ ⟨0, true, true⟩).1
    (by intro subs hmem; simp at hmem),
   (removeSubscriber_idempotent ⟨[], [(⟨1, true, true⟩, ["AAPL"])], []⟩ ⟨0, true, true⟩).2⟩

/-- C9: with zero registered subscribers, a flush cycle is a complete no-op
(state unchanged, no message sent) and a heartbeat cycle pings nobody. -/
theorem flush_pingAll_no_subscribers (st : PublisherState) (h : st.subscribers = []) :
    flush st = (st, []) ∧ pingAll st = [] := by
  constructor
  · unfold flush
    rw [if_pos (Or.inr h)]
  · unfold pingAll
    rw [h]
    rfl

/-- Witness for C9: a state with a non-empty pending batch but no subscribers
is left untouched by flush and produces no pings. -/
theorem flush_pingAll_no_subscribers_witness :
    flush ⟨[], [], [("AAPL", ⟨"AAPL", 190, "2024-01-01"⟩)]⟩
      = (⟨[], [], [("AAPL", ⟨"AAPL", 190, "2024-01-01"⟩)]⟩, []) ∧
    pingAll ⟨[], [], [("AAPL", ⟨"AAPL", 190, "2024-01-01"⟩)]⟩ = [] :=
  flush_pingAll_no_subscribers ⟨[], [], [("AAPL", ⟨"AAPL", 190, "2024-01-01"⟩)]⟩ rfl

/-- C10: when at least one subscriber is registered and the pending batch is
non-empty, one flush empties the pending batch — regardless of whether any
subscriber actually receives a message — while leaving the store and the
registry unchanged; the undelivered ticks are discarded. -/
theorem flush_discards_pending (st : PublisherState) (hp : st.pending ≠ [])
    (hs : st.subscribers ≠ []) :
    (flush st).1.pending = [] ∧ (flush st).1.store = st.store ∧
    (flush st).1.subscribers = st.subscribers := by
  unfold flush
  rw [if_neg (not_or.mpr ⟨hp, hs⟩)]
  exact ⟨rfl, rfl, rfl⟩

/-- Witness for C10: one closed-connection subscriber, one pending tick; the
flush delivers nothing, yet the pending batch is emptied and the rest of the
state is untouched. -/
theorem flush_discards_pending_witness :
    (flush ⟨[], [(⟨0, false, true⟩, ["AAPL"])],
        [("AAPL", ⟨"AAPL", 190, "2024-01-01"⟩)]⟩).1.pending = [] ∧
    (flush ⟨[], [(⟨0, false, true⟩, ["AAPL"])],
        [("AAPL", ⟨"AAPL", 190, "2024-01-01"⟩)]⟩).1.store = [] ∧
    (flush ⟨[], [(⟨0, false, true⟩, ["AAPL"])],
        [("AAPL", ⟨"AAPL", 190, "2024-01-01"⟩)]⟩).1.subscribers
      = [(⟨0, false, true⟩, ["AAPL"])] :=
  flush_discards_pending ⟨[], [(⟨0, false, true⟩, ["AAPL"])],
    [("AAPL", ⟨"AAPL", 190, "2024-01-01"⟩)]⟩ (by simp) (by simp)

theorem WFbatch_nil : WFbatch [] := by
  intro k t h
  simp at h

theorem WFbatch_mapSet (m : List (String × QuoteTick)) (s : String) (p : ℚ) (ts : String)
    (h : WFbatch m) : WFbatch (mapSet m s ⟨s, p, ts⟩) := by
  intro k t hmem
  unfold mapSet at hmem
  by_cases hany : m.any (fun q => q.1 = s) = true
  · rw [if_pos hany] at hmem
    rw [List.mem_map] at hmem
    obtain ⟨q, hq, heq⟩ := hmem
    by_cases hqs : q.1 = s
    · rw [if_pos hqs] at heq
      obtain ⟨h1, h2⟩ := Prod.mk.injEq .. ▸ heq
      rw [← h1, ← h2]
    · rw [if_neg hqs] at heq
      have : (k, t) ∈ m := heq ▸ hq
      exact h k t this
  · rw [if_neg hany] at hmem
    rw [List.mem_append] at hmem
    rcases hmem with hmem | hmem
    · exact h k t hmem
    · rw [List.mem_singleton] at hmem
      obtain ⟨h1, h2⟩ := Prod.mk.injEq .. ▸ hmem
      rw [h1, h2]

theorem payloadFor_mem (batch : List (String × QuoteTick)) (subs : List String)
    (h : WFbatch batch) (t : QuoteTick) (ht : t ∈ payloadFor batch subs) :
    t.symbol ∈ subs ∧ mapGet batch t.symbol = some t := by
  unfold payloadFor at ht
  rw [List.mem_filterMap] at ht
  obtain ⟨s, hs, hget⟩ := ht
  have hsym : t.symbol = s := by
    unfold mapGet at hget
    cases hfind : batch.find? (fun p => p.1 = s) with
    | none => rw [hfind] at hget; simp at hget
    | some q =>
      rw [hfind] at hget
      have hq2 : q.2 = t := by simpa using hget
      have hq1 : q.1 = s := by
        have hd := List.find?_some hfind
        simpa using hd
      have hqmem : (q.1, q.2) ∈ batch := by
        simpa using List.mem_of_find?_eq_some hfind
      have hws := h q.1 q.2 hqmem
      rw [← hq2, hws, hq1]
  rw [hsym]
  exact ⟨hs, hget⟩

theorem deliverOne_eq_some (batch : List (String × QuoteTick)) (entry : Conn × List String)
    (d : Conn × List QuoteTick) (h : deliverOne batch entry = some d) :
    entry.1.isOpen = true ∧ entry.1.sendOk = true ∧ d.1 = entry.1 ∧
    d.2 = payloadFor batch entry.2 ∧ d.2 ≠ [] := by
  unfold deliverOne at h
  by_cases ho : entry.1.isOpen
  · rw [if_pos ho] at h
    simp only at h
    by_cases hc : payloadFor batch entry.2 ≠ [] ∧ entry.1.sendOk = true
    · rw [if_pos hc] at h
      have hd := Option.some.inj h
      refine ⟨ho, hc.2, ?_, ?_, ?_⟩
      · rw [← hd]
      · rw [← hd]
      · rw [← hd]
        exact hc.1
    · rw [if_neg hc] at h
      exact absurd h (by simp)
  · rw [if_neg ho] at h
    exact absurd h (by simp)

theorem flush_delivery_src (st : PublisherState) (d : Conn × List QuoteTick)
    (hd : d ∈ (flush st).2) :
    ∃ entry ∈ st.subscribers, deliverOne st.pending entry = some d := by
  unfold flush at hd
  by_cases hc : st.pending = [] ∨ st.subscribers = []
  · rw [if_pos hc] at hd
    simp at hd
  · rw [if_neg hc] at hd
    simp only at hd
    rw [List.mem_filterMap] at hd
    exact hd

/-- C2: every message a flush delivers to a subscriber contains only ticks
whose symbols belong to that subscriber's current interest set, and no
delivered message has an empty item list. -/
theorem flush_filtering (st : PublisherState) (d : Conn × List QuoteTick)
    (hwf : WFbatch st.pending) (hd : d ∈ (flush st).2) :
    d.2 ≠ [] ∧ ∃ subs, (d.1, subs) ∈ st.subscribers ∧ ∀ t ∈ d.2, t.symbol ∈ subs := by
  obtain ⟨entry, hmem, hdel⟩ := flush_delivery_src st d hd
  obtain ⟨_, _, hconn, hpayload, hne⟩ := deliverOne_eq_some st.pending entry d hdel
  refine ⟨hne, entry.2, ?_, ?_⟩
  · rw [hconn]
    simpa using hmem
  · intro t ht
    rw [hpayload] at ht
    exact (payloadFor_mem st.pending entry.2 hwf t ht).1

/-- Witness for C2: one open subscriber interested in `AAPL` with `AAPL` and
`MSFT` pending; the delivered message is non-empty and stays inside the
interest set. -/
theorem WFbatch_of_all (m : List (String × QuoteTick))
    (h : m.all (fun p => p.2.symbol = p.1) = true) : WFbatch m := by
  intro k t hmem
  have hkt := List.all_eq_true.mp h (k, t) hmem
  simpa using hkt

theorem flush_filtering_witness :
    [(⟨"AAPL", 190, "t1"⟩ : QuoteTick)] ≠ [] ∧
    ∃ subs, ((⟨0, true, true⟩ : Conn), subs) ∈
        [((⟨0, true, true⟩ : Conn), ["AAPL"])] ∧
      ∀ t ∈ [(⟨"AAPL", 190, "t1"⟩ : QuoteTick)], t.symbol ∈ subs :=
  flush_filtering
    ⟨[], [(⟨0, true, true⟩, ["AAPL"])],
      [("AAPL", ⟨"AAPL", 190, "t1"⟩), ("MSFT", ⟨"MSFT", 300, "t1"⟩)]⟩
    (⟨0, true, true⟩, [⟨"AAPL", 190, "t1"⟩])
    (WFbatch_of_all _ (by decide))
    (by decide)

/-- C3 counterexample: the claim says a subscriber whose send fails during a
flush is pruned from the subscription registry, but the code's `catch {}`
swallows the failure and removes nothing: here the only subscriber is open
with a non-empty payload, its send fails, and after the flush it is still
registered. -/
theorem flush_no_prune_counterexample :
    payloadFor [("AAPL", ⟨"AAPL", 190, "t1"⟩)] ["AAPL"] ≠ [] ∧
    (⟨0, true, false⟩ : Conn).sendOk = false ∧
    (flush ⟨[], [(⟨0, true, false⟩, ["AAPL"])], [("AAPL", ⟨"AAPL", 190, "t1"⟩)]⟩).1.subscribers
      = [(⟨0, true, false⟩, ["AAPL"])] := by
  refine ⟨?_, rfl, ?_⟩
  · decide
  · decide

theorem deliverOne_sendFail (batch : List (String × QuoteTick)) (entry : Conn × List String)
    (hfail : entry.1.sendOk = false) : deliverOne batch entry = none := by
  unfold deliverOne
  by_cases ho : entry.1.isOpen
  · rw [if_pos ho, if_neg]
    intro hc
    rw [hfail] at hc
    exact absurd hc.2 (by simp)
  · rw [if_neg ho]

theorem deliverOne_nil_batch (entry : Conn × List String) :
    deliverOne ([] : List (String × QuoteTick)) entry = none := by
  unfold deliverOne
  have hp : payloadFor [] entry.2 = [] := by
    unfold payloadFor
    rw [List.filterMap_eq_nil_iff]
    intro s hs
    rfl
  by_cases ho : entry.1.isOpen
  · rw [if_pos ho, if_neg]
    intro hc
    exact hc.1 hp
  · rw [if_neg ho]

/-- C3 (amended): a delivery failure to one subscriber during a flush does not
prevent delivery to the other subscribers and no exception escapes the flush
(the model's flush is a total function whose other deliveries are computed
exactly as if the failing subscriber were absent); however the failing
subscriber is NOT pruned — the registry is unchanged by the flush, and
removal happens only through the gateway's close/error handlers. -/
theorem flush_fault_isolation (st : PublisherState) (pre post : List (Conn × List String))
    (bad : Conn × List String) (hsub : st.subscribers = pre ++ bad :: post)
    (hfail : bad.1.sendOk = false) :
    (flush st).1.subscribers = st.subscribers ∧
    (flush st).2 = pre.filterMap (deliverOne st.pending)
      ++ post.filterMap (deliverOne st.pending) := by
  have hbad : deliverOne st.pending bad = none := deliverOne_sendFail st.pending bad hfail
  unfold flush
  by_cases hc : st.pending = [] ∨ st.subscribers = []
  · rw [if_pos hc]
    refine ⟨rfl, ?_⟩
    rcases hc with hpend | hsubs
    · rw [hpend]
      have h1 : pre.filterMap (deliverOne ([] : List (String × QuoteTick))) = [] := by
        rw [List.filterMap_eq_nil_iff]
        intro e he
        exact deliverOne_nil_batch e
      have h2 : post.filterMap (deliverOne ([] : List (String × QuoteTick))) = [] := by
        rw [List.filterMap_eq_nil_iff]
        intro e he
        exact deliverOne_nil_batch e
      rw [h1, h2]
      rfl
    · rw [hsubs] at hsub
      exact absurd hsub.symm (List.append_ne_nil_of_right_ne_nil pre (by simp))
  · rw [if_neg hc]
    refine ⟨rfl, ?_⟩
    simp only [hsub, List.filterMap_append, List.filterMap_cons, hbad]

/-- Witness for C3 (amended): two healthy subscribers around one failing one —
the flush keeps all three registered and delivers to both healthy ones exactly
their own payloads. -/
theorem flush_fault_isolation_witness :
    (flush ⟨[], [(⟨1, true, true⟩, ["AAPL"]), (⟨2, true, false⟩, ["AAPL"]),
        (⟨3, true, true⟩, ["AAPL"])], [("AAPL", ⟨"AAPL", 190, "t1"⟩)]⟩).1.subscribers
      = [(⟨1, true, true⟩, ["AAPL"]), (⟨2, true, false⟩, ["AAPL"]),
        (⟨3, true, true⟩, ["AAPL"])] ∧
    (flush ⟨[], [(⟨1, true, true⟩, ["AAPL"]), (⟨2, true, false⟩, ["AAPL"]),
        (⟨3, true, true⟩, ["AAPL"])], [("AAPL", ⟨"AAPL", 190, "t1"⟩)]⟩).2
      = [(⟨1, true, true⟩, ["AAPL"])].filterMap
          (deliverOne [("AAPL", ⟨"AAPL", 190, "t1"⟩)])
        ++ [(⟨3, true, true⟩, ["AAPL"])].filterMap
          (deliverOne [("AAPL", ⟨"AAPL", 190, "t1"⟩)]) :=
  flush_fault_isolation
    ⟨[], [(⟨1, true, true⟩, ["AAPL"]), (⟨2, true, false⟩, ["AAPL"]),
      (⟨3, true, true⟩, ["AAPL"])], [("AAPL", ⟨"AAPL", 190, "t1"⟩)]⟩
    [(⟨1, true, true⟩, ["AAPL"])] [(⟨3, true, true⟩, ["AAPL"])]
    (⟨2, true, false⟩, ["AAPL"]) rfl rfl

theorem applyPublishes_pending (sym : String) (calls : List (String × ℚ × String)) :
    ∀ st : PublisherState,
      mapGet (applyPublishes calls st).pending sym =
        match lastCallTo sym calls with
        | some (p, ts) => some ⟨sym, p, ts⟩
        | none => mapGet st.pending sym := by
  induction calls with
  | nil => intro st; rfl
  | cons c rest ih =>
    intro st
    have hstep : applyPublishes (c :: rest) st
        = applyPublishes rest (publish st c.1 c.2.1 c.2.2) := rfl
    rw [hstep, ih]
    cases hrest : lastCallTo sym rest with
    | some x =>
      simp only [lastCallTo, hrest]
    | none =>
      simp only [lastCallTo, hrest]
      by_cases hc : c.1 = sym
      · rw [if_pos hc]
        have : (publish st c.1 c.2.1 c.2.2).pending
            = mapSet st.pending c.1 ⟨c.1, c.2.1, c.2.2⟩ := rfl
        rw [this, hc]
        exact mapGet_mapSet_self st.pending sym ⟨sym, c.2.1, c.2.2⟩
      · rw [if_neg hc]
        have : (publish st c.1 c.2.1 c.2.2).pending
            = mapSet st.pending c.1 ⟨c.1, c.2.1, c.2.2⟩ := rfl
        rw [this]
        exact mapGet_mapSet_ne st.pending sym c.1 ⟨c.1, c.2.1, c.2.2⟩
          (fun hs => hc hs.symm)

theorem WFbatch_applyPublishes (calls : List (String × ℚ × String)) :
    ∀ st : PublisherState, WFbatch st.pending → WFbatch (applyPublishes calls st).pending := by
  induction calls with
  | nil => intro st h; exact h
  | cons c rest ih =>
    intro st h
    have hstep : applyPublishes (c :: rest) st
        = applyPublishes rest (publish st c.1 c.2.1 c.2.2) := rfl
    rw [hstep]
    apply ih
    exact WFbatch_mapSet st.pending c.1 c.2.1 c.2.2 h

/-- C1: among all `publish` calls to the same symbol between two flushes, only
the last call's price and timestamp survive: the pending batch holds exactly
the last tick for that symbol, and every tick for that symbol appearing in any
message delivered by the next flush is that last tick. -/
theorem publish_coalescing (st : PublisherState) (calls : List (String × ℚ × String))
    (sym : String) (p : ℚ) (ts : String) (hwf : WFbatch st.pending)
    (hlast : lastCallTo sym calls = some (p, ts)) :
    mapGet (applyPublishes calls st).pending sym = some ⟨sym, p, ts⟩ ∧
    ∀ d ∈ (flush (applyPublishes calls st)).2, ∀ t ∈ d.2,
      t.symbol = sym → t = ⟨sym, p, ts⟩ := by
  have hpend : mapGet (applyPublishes calls st).pending sym = some ⟨sym, p, ts⟩ := by
    rw [applyPublishes_pending sym calls st, hlast]
  refine ⟨hpend, ?_⟩
  intro d hd t ht hts
  have hwf' : WFbatch (applyPublishes calls st).pending :=
    WFbatch_applyPublishes calls st hwf
  obtain ⟨entry, hmem, hdel⟩ := flush_delivery_src (applyPublishes calls st) d hd
  obtain ⟨_, _, _, hpayload, _⟩ :=
    deliverOne_eq_some (applyPublishes calls st).pending entry d hdel
  rw [hpayload] at ht
  have hm := (payloadFor_mem (applyPublishes calls st).pending entry.2 hwf' t ht).2
  rw [hts, hpend] at hm
  exact (Option.some.inj hm).symm

/-- Witness for C1: publishing `AAPL@100` then `AAPL@101` in one flush window
leaves only the 101 tick in the batch, and the one delivered message carries
exactly that tick. -/
theorem publish_coalescing_witness :
    mapGet (applyPublishes [("AAPL", 100, "t1"), ("AAPL", 101, "t2")]
        ⟨[], [(⟨0, true, true⟩, ["AAPL"])], []⟩).pending "AAPL"
      = some ⟨"AAPL", 101, "t2"⟩ ∧
    ∀ d ∈ (flush (applyPublishes [("AAPL", 100, "t1"), ("AAPL", 101, "t2")]
        ⟨[], [(⟨0, true, true⟩, ["AAPL"])], []⟩)).2, ∀ t ∈ d.2,
      t.symbol = "AAPL" → t = ⟨"AAPL", 101, "t2"⟩ :=
  publish_coalescing ⟨[], [(⟨0, true, true⟩, ["AAPL"])], []⟩
    [("AAPL", 100, "t1"), ("AAPL", 101, "t2")] "AAPL" 101 "t2"
    (WFbatch_of_all _ (by decide)) (by decide)

theorem genTickN_succ (n : Nat) (symbols : List String) (now : String) (st : GenState) :
    genTickN (n + 1) symbols now st =
      ((genTickN n symbols now (genUpdate symbols now st).1).1,
       (genUpdate symbols now st).2
         :: (genTickN n symbols now (genUpdate symbols now st).1).2) := rfl

theorem genLoop_cons (updates : Nat) (symbols : List String) (st : GenState)
    (now : String) (rest : List String) :
    genLoop updates symbols st (now :: rest) =
      ((genLoop updates symbols (genTickN updates symbols now st).1 rest).1,
       (genTickN updates symbols now st).2
         ++ (genLoop updates symbols (genTickN updates symbols now st).1 rest).2) := rfl

theorem genTickN_time_independent (n : Nat) (symbols : List String) (a b : String) :
    ∀ st : GenState,
      (genTickN n symbols a st).1 = (genTickN n symbols b st).1 ∧
      dropTs (genTickN n symbols a st).2 = dropTs (genTickN n symbols b st).2 := by
  induction n with
  | zero => intro st; exact ⟨rfl, rfl⟩
  | succ n ih =>
    intro st
    have hstate : (genUpdate symbols b st).1 = (genUpdate symbols a st).1 := rfl
    rw [genTickN_succ n symbols a st, genTickN_succ n symbols b st, hstate]
    have htail := ih (genUpdate symbols a st).1
    constructor
    · exact htail.1
    · unfold dropTs
      rw [List.map_cons, List.map_cons]
      congr 1
      have hmap := htail.2
      unfold dropTs at hmap
      exact hmap

theorem genLoop_time_independent (updates : Nat) (symbols : List String) :
    ∀ times1 times2 : List String, times1.length = times2.length →
      ∀ st : GenState,
        (genLoop updates symbols st times1).1 = (genLoop updates symbols st times2).1 ∧
        dropTs (genLoop updates symbols st times1).2
          = dropTs (genLoop updates symbols st times2).2 := by
  intro times1
  induction times1 with
  | nil =>
    intro times2 hlen st
    cases times2 with
    | nil => exact ⟨rfl, rfl⟩
    | cons b bs => simp at hlen
  | cons a as ih =>
    intro times2 hlen st
    cases times2 with
    | nil => simp at hlen
    | cons b bs =>
      have hlen' : as.length = bs.length := by simpa using hlen
      have htick := genTickN_time_independent updates symbols a b st
      rw [genLoop_cons updates symbols st a as, genLoop_cons updates symbols st b bs,
        htick.1]
      have hrest := ih bs hlen' (genTickN updates symbols b st).1
      constructor
      · exact hrest.1
      · unfold dropTs
        rw [List.map_append, List.map_append]
        have hm1 := htick.2
        unfold dropTs at hm1
        have hm2 := hrest.2
        unfold dropTs at hm2
        rw [hm1, hm2]

/-- C5 counterexample: the claim asks two independent runs with identical
configuration to produce identical `(symbol, price, timestamp)` sequences,
but each run stamps its ticks with `new Date().toISOString()` — wall-clock
time, not configuration — so two runs started at different instants differ
in the timestamp component even with the same symbol list, the same rate and
the same fixed seed 42. -/
theorem genRun_ts_counterexample :
    genRun ["AAPL"] 10 ["2024-01-01T00:00:00.000Z"]
      ≠ genRun ["AAPL"] 10 ["2024-01-01T00:00:01.000Z"] := by
  intro h
  have hts := congrArg (List.map (fun c : String × ℚ × String => c.2.2)) h
  have h1 : (genRun ["AAPL"] 10 ["2024-01-01T00:00:00.000Z"]).map
      (fun c : String × ℚ × String => c.2.2) = ["2024-01-01T00:00:00.000Z"] := rfl
  have h2 : (genRun ["AAPL"] 10 ["2024-01-01T00:00:01.000Z"]).map
      (fun c : String × ℚ × String => c.2.2) = ["2024-01-01T00:00:01.000Z"] := rfl
  rw [h1, h2] at hts
  exact absurd hts (by simp)

/-- C5 (amended): two runs with identical configuration (same symbol list,
same rate, same fixed seed 42) and the same number of timer firings produce
identical `(symbol, price)` publish sequences in the same order; only the
wall-clock timestamp component can differ between the runs. -/
theorem genRun_price_deterministic (symbols : List String) (rate : Nat)
    (times1 times2 : List String) (hlen : times1.length = times2.length) :
    dropTs (genRun symbols rate times1) = dropTs (genRun symbols rate times2) := by
  unfold genRun
  exact (genLoop_time_independent (max 1 (max 1 (min 1000 rate) / 10)) symbols
    times1 times2 hlen (genInit symbols)).2

/-- Witness for C5 (amended): two one-firing runs at different wall-clock
instants publish the same `(symbol, price)` sequence. -/
theorem genRun_price_deterministic_witness :
    dropTs (genRun ["AAPL"] 10 ["2024-01-01T00:00:00.000Z"])
      = dropTs (genRun ["AAPL"] 10 ["2024-01-01T00:00:01.000Z"]) :=
  genRun_price_deterministic ["AAPL"] 10 ["2024-01-01T00:00:00.000Z"]
    ["2024-01-01T00:00:01.000Z"] rfl
